import Mathlib

/-!
Verification of the `ParamEditor` form widget (src/src/main.tsx).

The component keeps three pieces of React state, each a JavaScript object
keyed by a numeric param id (`Record<number, string>` / `Record<number, boolean>`):
the current form values, the per-field error messages, and the per-field
touched ("dirty") flags.  We embed such a record as an association list
sorted by key, mirroring the enumeration order JavaScript uses for
integer-like keys (ascending), with lookup returning `Option`.

Every definition below is a direct translation of the corresponding
function in `src/src/main.tsx`; line references are given in doc comments.
-/

/-- `Param` (main.tsx lines 5-9): the `type` marker is `"string" | "number"`. -/
inductive ParamType where
  | str : ParamType
  | num : ParamType
deriving DecidableEq, Repr

/-- `Param` (main.tsx lines 5-9). -/
structure Param where
  id : Nat
  name : String
  type : ParamType
deriving DecidableEq, Repr

/-- `ParamValue` (main.tsx lines 11-14). -/
structure ParamValue where
  paramId : Nat
  value : String
deriving DecidableEq, Repr

/-- `Color` (main.tsx lines 16-19). -/
structure Color where
  id : Nat
  name : String
deriving DecidableEq, Repr

/-- `Model` (main.tsx lines 21-24). -/
structure Model where
  paramValues : List ParamValue
  colors : List Color
deriving DecidableEq, Repr

/-- A JavaScript object with numeric keys (`Record<number, α>`), embedded as
an association list kept sorted by key: JavaScript enumerates integer-like
keys in ascending order, so `Object.entries` order is recovered by keeping
the list sorted. -/
abbrev JsRecord (α : Type) : Type := List (Nat × α)

/-- Property read `m[k]`: `some v` when the key is present, `none` when absent. -/
def recordGet {α : Type} : JsRecord α → Nat → Option α
  | [], _ => none
  | (k, v) :: rest, k' => if k' = k then some v else recordGet rest k'

/-- Property write `{...m, [k]: v}` (also `m[k] = v` in the init loops):
overwrites an existing key in place, inserts a new key in ascending position. -/
def recordSet {α : Type} : JsRecord α → Nat → α → JsRecord α
  | [], k, v => [(k, v)]
  | (k', v') :: rest, k, v =>
    if k = k' then (k, v) :: rest
    else if k < k' then (k, v) :: (k', v') :: rest
    else (k', v') :: recordSet rest k v

/-- JavaScript truthiness of `m[k]` for a string-valued record:
truthy iff the key is present with a non-empty value. -/
def truthy : Option String → Bool
  | some s => s != ""
  | none => false

/-- JavaScript `String.prototype.toLowerCase` restricted to the character
ranges this program uses: the Unicode simple lowercase mapping on ASCII
letters and on the Cyrillic letters А-Я and Ё. -/
def jsCharToLower (c : Char) : Char :=
  if 'A' ≤ c ∧ c ≤ 'Z' then Char.ofNat (c.toNat + 32)
  else if 'А' ≤ c ∧ c ≤ 'Я' then Char.ofNat (c.toNat + 32)
  else if c = 'Ё' then 'ё'
  else c

/-- `value.toLowerCase()` on a whole string, mapped over its characters. -/
def jsToLower (s : String) : String := String.mk (s.data.map jsCharToLower)

/-- The static allow-list table `allowedValues` (main.tsx lines 57-61). -/
def allowedValues : List (String × List String) :=
  [("Назначение", ["повседневное", "спортивное"]),
   ("Длина", ["макси", "мини"]),
   ("Цвет", ["белый", "синий"])]

/-- The own-key part of the property read `allowedValues[paramName]`
(main.tsx line 63): `some` exactly for the three table keys.  A JavaScript
property read also consults the prototype chain; `jsPropRead` below models
the full read, including the `Object.prototype`-inherited names for which
the source obtains a truthy non-array value. -/
def lookupAllowed (name : String) : Option (List String) :=
  (allowedValues.find? (fun kv => kv.1 == name)).map (fun kv => kv.2)

/-- `validateParamValue` (main.tsx lines 53-69), restricted to the
non-throwing paths: `none` stands for the JavaScript `null` (no error), and
the prototype-chain hit (where the source throws a TypeError instead of
returning) is collapsed to `none`.  `validateParamValueJs` below is the full
model with the throw; `validateJs_eq_ok` proves the two agree wherever the
source returns at all.  The guard `value && !includes(...)` fires only for a
non-empty value whose lowercased form is outside the allow-list. -/
def validateParamValue (paramName value : String) : Option String :=
  match lookupAllowed paramName with
  | some allowed =>
    if value != "" && !(allowed.contains (jsToLower value)) then
      some ("Допустимые значения: " ++ String.intercalate ", " allowed)
    else
      none
  | none => none

/-- The three `useState` stores of `ParamEditor` (main.tsx lines 33-42). -/
structure EditorState where
  paramValues : JsRecord String
  errors : JsRecord String
  dirtyFields : JsRecord Bool
deriving DecidableEq, Repr

/-- The initializer loop shared by the `useState` initializer
(main.tsx lines 33-39) and the `useEffect` body (lines 44-50):
`model.paramValues.forEach(item => { values[item.paramId] = item.value })`. -/
def initValues (pvs : List ParamValue) : JsRecord String :=
  pvs.foldl (fun acc pv => recordSet acc pv.paramId pv.value) []

/-- The component state right after mount (main.tsx lines 33-42):
values from the model, empty error and dirty maps. -/
def initialState (model : Model) : EditorState :=
  { paramValues := initValues model.paramValues, errors := [], dirtyFields := [] }

/-- The `useEffect` on `[model]` (main.tsx lines 44-50): a model change
rebuilds `paramValues` from the new model and touches nothing else. -/
def onModelChange (model : Model) (st : EditorState) : EditorState :=
  { st with paramValues := initValues model.paramValues }

/-- The rendered `value={paramValues[param.id] || ""}` (main.tsx line 209);
the same expression supplies the value validated in `handleBlur` (line 88). -/
def renderedValue (st : EditorState) (paramId : Nat) : String :=
  (recordGet st.paramValues paramId).getD ""

/-- `handleParamChange` (main.tsx lines 71-84): store the new value; when the
field currently has a truthy error, overwrite that error with `""`. -/
def handleParamChange (st : EditorState) (paramId : Nat) (value : String) : EditorState :=
  let st1 := { st with paramValues := recordSet st.paramValues paramId value }
  if truthy (recordGet st.errors paramId) then
    { st1 with errors := recordSet st.errors paramId "" }
  else
    st1

/-- `handleBlur` (main.tsx lines 86-102): validate the current value
(`paramValues[paramId] || ""`), record `error || ""`, mark the field dirty. -/
def handleBlur (st : EditorState) (paramId : Nat) (paramName : String) : EditorState :=
  let value := (recordGet st.paramValues paramId).getD ""
  let error := validateParamValue paramName value
  { st with
    errors := recordSet st.errors paramId (error.getD ""),
    dirtyFields := recordSet st.dirtyFields paramId true }

/-- `getModel` (main.tsx lines 104-115): `Object.entries(paramValues)` in
ascending key order, rebuilt into `ParamValue`s, spread over the model. -/
def getModel (model : Model) (st : EditorState) : Model :=
  { model with paramValues := st.paramValues.map (fun kv => ⟨kv.1, kv.2⟩) }

/-- The `params.forEach` validation loop of `handleClick`
(main.tsx lines 119-128): accumulates `newErrors` and `hasErrors`. -/
def checkParams (params : List Param) (vals : JsRecord String) : JsRecord String × Bool :=
  params.foldl
    (fun acc param =>
      match validateParamValue param.name ((recordGet vals param.id).getD "") with
      | some error => (recordSet acc.1 param.id error, true)
      | none => acc)
    ([], false)

/-- The generic failure notice alerted when validation fails (main.tsx line 136). -/
def failureNotice : String := "Пожалуйста, исправьте ошибки перед отправкой"

/-- `handleClick` (main.tsx lines 117-151).  Returns the post-click state and
the text of the single `alert` the handler produces: either the generic
failure notice, or the formatted summary.  `setErrors(newErrors)` and the
dirty-map rebuild happen in both branches, before the early return. -/
def handleClick (params : List Param) (model : Model) (st : EditorState) :
    EditorState × String :=
  let checked := checkParams params st.paramValues
  let st1 := { st with
    errors := checked.1,
    dirtyFields := params.foldl (fun acc param => recordSet acc param.id true) [] }
  if checked.2 then
    (st1, failureNotice)
  else
    let currentModel := getModel model st
    let formattedOutput := String.intercalate "\n" (params.map (fun param =>
      let value :=
        match currentModel.paramValues.find? (fun p => p.paramId == param.id) with
        | some pv => if pv.value = "" then "не указано" else pv.value
        | none => "не указано"
      param.name ++ ": " ++ value))
    (st1, "Введённые значения параметров:\n\n" ++ formattedOutput)

/-- The own property names of `Object.prototype`: a JavaScript property read
on the plain object literal `allowedValues` falls back to these when the key
is not an own key.  Each of them yields a truthy value (a function, or the
prototype object itself for `__proto__`) that has no `includes` method. -/
def protoProps : List String :=
  ["constructor", "hasOwnProperty", "isPrototypeOf", "propertyIsEnumerable",
   "toLocaleString", "toString", "valueOf", "__proto__",
   "__defineGetter__", "__defineSetter__", "__lookupGetter__", "__lookupSetter__"]

/-- The value JavaScript yields for `allowedValues[paramName]`: an own key's
allow-list, a truthy `Object.prototype`-inherited value without an
`includes` method, or `undefined`. -/
inductive PropLookup where
  | list : List String → PropLookup
  | inherited : PropLookup
  | undef : PropLookup
deriving DecidableEq, Repr

/-- The full property read `allowedValues[paramName]` (main.tsx line 63),
prototype chain included. -/
def jsPropRead (name : String) : PropLookup :=
  match lookupAllowed name with
  | some l => PropLookup.list l
  | none =>
    if protoProps.contains name then PropLookup.inherited else PropLookup.undef

/-- Outcome of a call to the source's `validateParamValue`: a returned value
(`ok`, with `none` for `null`), or a thrown TypeError. -/
inductive ValidateResult where
  | ok : Option String → ValidateResult
  | typeError : ValidateResult
deriving DecidableEq, Repr

/-- `validateParamValue` (main.tsx lines 53-69) with the throwing path
modelled.  When `allowedValues[paramName]` is an `Object.prototype`-inherited
value, the outer `if` is truthy; a non-empty `value` then reaches
`allowedValues[paramName].includes(...)`, which is `undefined(...)` and
throws a TypeError, while an empty `value` short-circuits on `value &&` and
the function returns `null`. -/
def validateParamValueJs (paramName value : String) : ValidateResult :=
  match jsPropRead paramName with
  | PropLookup.list allowed =>
    if value != "" && !(allowed.contains (jsToLower value)) then
      ValidateResult.ok
        (some ("Допустимые значения: " ++ String.intercalate ", " allowed))
    else
      ValidateResult.ok none
  | PropLookup.inherited =>
    if value != "" then ValidateResult.typeError else ValidateResult.ok none
  | PropLookup.undef => ValidateResult.ok none

/-- The `params.forEach` validation loop of `handleClick` with the throw
modelled: `none` when some iteration throws a TypeError, which aborts the
loop (and escapes `handleClick` before any `setErrors`/`setDirtyFields`). -/
def checkParamsJs (vals : JsRecord String) :
    List Param → JsRecord String × Bool → Option (JsRecord String × Bool)
  | [], acc => some acc
  | param :: rest, acc =>
    match validateParamValueJs param.name ((recordGet vals param.id).getD "") with
    | ValidateResult.typeError => none
    | ValidateResult.ok (some error) =>
      checkParamsJs vals rest (recordSet acc.1 param.id error, true)
    | ValidateResult.ok none => checkParamsJs vals rest acc

/-- `handleClick` (main.tsx lines 117-151) with the throwing path modelled:
`none` when the validation loop throws a TypeError — the exception leaves
the handler before `setErrors`, `setDirtyFields` and both `alert` calls, so
no state changes and no alert is produced. -/
def handleClickJs (params : List Param) (model : Model) (st : EditorState) :
    Option (EditorState × String) :=
  match checkParamsJs st.paramValues params ([], false) with
  | none => none
  | some checked =>
    let st1 := { st with
      errors := checked.1,
      dirtyFields := params.foldl (fun acc param => recordSet acc param.id true) [] }
    if checked.2 then
      some (st1, failureNotice)
    else
      let currentModel := getModel model st
      let formattedOutput := String.intercalate "\n" (params.map (fun param =>
        let value :=
          match currentModel.paramValues.find? (fun p => p.paramId == param.id) with
          | some pv => if pv.value = "" then "не указано" else pv.value
          | none => "не указано"
        param.name ++ ": " ++ value))
      some (st1, "Введённые значения параметров:\n\n" ++ formattedOutput)

/-- `demoParams` (main.tsx lines 262-266). -/
def demoParams : List Param :=
  [⟨1, "Назначение", ParamType.str⟩, ⟨2, "Длина", ParamType.str⟩, ⟨3, "Цвет", ParamType.str⟩]

/-- `demoModel` (main.tsx lines 268-277). -/
def demoModel : Model :=
  { paramValues := [⟨1, "повседневное"⟩, ⟨2, "макси"⟩],
    colors := [⟨1, "белый"⟩, ⟨2, "синий"⟩] }

/-! ### Lemmas about the record embedding -/

theorem recordGet_set_self {α : Type} (m : JsRecord α) (k : Nat) (v : α) :
    recordGet (recordSet m k v) k = some v := by
  induction m with
  | nil => simp [recordSet, recordGet]
  | cons hd tl ih =>
    obtain ⟨a, b⟩ := hd
    by_cases h : k = a
    · simp [recordSet, h, recordGet]
    · by_cases h2 : k < a
      · simp [recordSet, h, h2, recordGet]
      · simp [recordSet, h, h2, recordGet, ih]

theorem recordGet_set_ne {α : Type} (m : JsRecord α) (k k' : Nat) (v : α)
    (h : k' ≠ k) : recordGet (recordSet m k v) k' = recordGet m k' := by
  induction m with
  | nil => simp [recordSet, recordGet, h]
  | cons hd tl ih =>
    obtain ⟨a, b⟩ := hd
    by_cases h1 : k = a
    · subst h1
      simp [recordSet, recordGet, h]
    · by_cases h2 : k < a
      · simp [recordSet, h1, h2, recordGet, h]
      · by_cases h3 : k' = a
        · simp [recordSet, h1, h2, recordGet, h3]
        · simp [recordSet, h1, h2, recordGet, h3, ih]

/-- The value the `forEach` initialization loop leaves in the store for a
given id: the value of the last `ParamValue` carrying that id, absent when
no entry carries it. -/
def modelValue (pvs : List ParamValue) (id : Nat) : Option String :=
  (pvs.reverse.find? (fun pv => pv.paramId == id)).map (fun pv => pv.value)

theorem initValues_foldl_get (pvs : List ParamValue) (acc : JsRecord String) (id : Nat) :
    recordGet (pvs.foldl (fun a pv => recordSet a pv.paramId pv.value) acc) id =
      (modelValue pvs id).elim (recordGet acc id) some := by
  induction pvs generalizing acc with
  | nil => simp [modelValue]
  | cons pv rest ih =>
    simp only [List.foldl_cons, ih, modelValue, List.reverse_cons, List.find?_append]
    cases hfind : rest.reverse.find? (fun q => q.paramId == id) with
    | some q => simp [Option.or]
    | none =>
      by_cases hk : id = pv.paramId
      · simp [Option.or, List.find?, hk, recordGet_set_self]
      · have : (pv.paramId == id) = false := by
          simp [Ne.symm hk]
        simp [Option.or, List.find?, this, recordGet_set_ne _ _ _ _ hk]

theorem initValues_get (pvs : List ParamValue) (id : Nat) :
    recordGet (initValues pvs) id = modelValue pvs id := by
  rw [initValues, initValues_foldl_get]
  cases modelValue pvs id <;> simp [recordGet]

/-- The validator never produces the empty string as an error message. -/
theorem validate_ne_some_empty (n v : String) : validateParamValue n v ≠ some "" := by
  intro hc
  unfold validateParamValue at hc
  split at hc
  · split at hc
    · injection hc with hc
      have hd := congrArg String.data hc
      rw [String.data_append, show ("".data : List Char) = [] from rfl] at hd
      have h1 := (List.append_eq_nil.mp hd).1
      exact absurd h1 (by decide)
    · exact Option.noConfusion hc
  · exact Option.noConfusion hc

/-- Marking loop `params.reduce((acc, p) => ({...acc, [p.id]: true}), {})`:
every id appearing in `params` (or already marked in the accumulator) ends
up marked `true`. -/
theorem foldl_markDirty_get (params : List Param) (acc : JsRecord Bool) (id : Nat)
    (h : (∃ p ∈ params, p.id = id) ∨ recordGet acc id = some true) :
    recordGet (params.foldl (fun a p => recordSet a p.id true) acc) id = some true := by
  induction params generalizing acc with
  | nil =>
    rcases h with ⟨p, hp, _⟩ | hacc
    · exact absurd hp (List.not_mem_nil p)
    · simpa using hacc
  | cons p rest ih =>
    rw [List.foldl_cons]
    apply ih
    rcases h with ⟨q, hq, hid⟩ | hacc
    · rcases List.mem_cons.mp hq with rfl | hmem
      · right
        rw [← hid]
        exact recordGet_set_self _ _ _
      · exact Or.inl ⟨q, hmem, hid⟩
    · right
      by_cases hk : id = p.id
      · rw [hk]
        exact recordGet_set_self _ _ _
      · rw [recordGet_set_ne _ _ _ _ hk]
        exact hacc

/-- If some parameter in the remaining list fails validation, or the
accumulator has already seen a failure, the validation loop reports
`hasErrors = true`. -/
theorem checkParams_foldl_snd (params : List Param) (vals : JsRecord String)
    (acc : JsRecord String × Bool)
    (h : (∃ p ∈ params, validateParamValue p.name ((recordGet vals p.id).getD "") ≠ none)
         ∨ acc.2 = true) :
    (params.foldl
      (fun acc param =>
        match validateParamValue param.name ((recordGet vals param.id).getD "") with
        | some error => (recordSet acc.1 param.id error, true)
        | none => acc)
      acc).2 = true := by
  induction params generalizing acc with
  | nil =>
    rcases h with ⟨p, hp, _⟩ | hacc
    · exact absurd hp (List.not_mem_nil p)
    · simpa using hacc
  | cons p rest ih =>
    rw [List.foldl_cons]
    apply ih
    rcases h with ⟨q, hq, hfail⟩ | hacc
    · rcases List.mem_cons.mp hq with rfl | hmem
      · right
        cases hv : validateParamValue q.name ((recordGet vals q.id).getD "") with
        | some e => simp [hv]
        | none => exact absurd hv hfail
      · exact Or.inl ⟨q, hmem, hfail⟩
    · right
      cases hv : validateParamValue p.name ((recordGet vals p.id).getD "") with
      | some e => simp [hv]
      | none => simpa [hv] using hacc

/-- If some parameter with id `k` in the remaining list fails validation, or
the accumulator already records a non-empty error for `k`, the validation
loop leaves a non-empty error message recorded for `k`. -/
theorem checkParams_foldl_fst (params : List Param) (vals : JsRecord String)
    (acc : JsRecord String × Bool) (k : Nat)
    (h : (∃ p ∈ params, p.id = k ∧
            validateParamValue p.name ((recordGet vals p.id).getD "") ≠ none)
         ∨ (∃ e, recordGet acc.1 k = some e ∧ e ≠ "")) :
    ∃ e, recordGet (params.foldl
      (fun acc param =>
        match validateParamValue param.name ((recordGet vals param.id).getD "") with
        | some error => (recordSet acc.1 param.id error, true)
        | none => acc)
      acc).1 k = some e ∧ e ≠ "" := by
  induction params generalizing acc with
  | nil =>
    rcases h with ⟨p, hp, _⟩ | hacc
    · exact absurd hp (List.not_mem_nil p)
    · simpa using hacc
  | cons p rest ih =>
    rw [List.foldl_cons]
    apply ih
    rcases h with ⟨q, hq, hk, hfail⟩ | ⟨e, he, hne⟩
    · rcases List.mem_cons.mp hq with rfl | hmem
      · cases hv : validateParamValue q.name ((recordGet vals q.id).getD "") with
        | some e =>
          right
          refine ⟨e, ?_, ?_⟩
          · simp only [hv]
            rw [← hk]
            exact recordGet_set_self _ _ _
          · intro hee
            rw [hee] at hv
            exact validate_ne_some_empty _ _ hv
        | none => exact absurd hv hfail
      · exact Or.inl ⟨q, hmem, hk, hfail⟩
    · right
      cases hv : validateParamValue p.name ((recordGet vals p.id).getD "") with
      | some e' =>
        simp only [hv]
        by_cases hkp : k = p.id
        · refine ⟨e', ?_, ?_⟩
          · rw [hkp]
            exact recordGet_set_self _ _ _
          · intro hee
            rw [hee] at hv
            exact validate_ne_some_empty _ _ hv
        · exact ⟨e, by rw [recordGet_set_ne _ _ _ _ hkp]; exact he, hne⟩
      | none => exact ⟨e, by simp [hv, he], hne⟩

/-- Wherever the source's validator returns at all (does not throw), the
collapsed `validateParamValue` computes exactly the returned value. -/
theorem validateJs_eq_ok (n v : String)
    (h : validateParamValueJs n v ≠ ValidateResult.typeError) :
    validateParamValueJs n v = ValidateResult.ok (validateParamValue n v) := by
  unfold validateParamValueJs jsPropRead at h ⊢
  unfold validateParamValue
  cases hl : lookupAllowed n with
  | some allowed =>
    simp only [hl]
    by_cases hc : (v != "" && !(allowed.contains (jsToLower v))) = true
    · rw [if_pos hc, if_pos hc]
    · rw [if_neg hc, if_neg hc]
  | none =>
    simp only [hl] at h ⊢
    by_cases hp : protoProps.contains n = true
    · simp only [hp, if_true] at h ⊢
      by_cases hv : (v != "") = true
      · exact absurd (by simp [hv]) h
      · simp [hv]
    · have hpf : protoProps.contains n = false := by
        cases hcp : protoProps.contains n
        · rfl
        · exact absurd hcp hp
      simp only [hpf, Bool.false_eq_true, if_false]

/-- A name different from all three table keys has no own-key entry. -/
theorem lookupAllowed_eq_none (name : String)
    (h1 : name ≠ "Назначение") (h2 : name ≠ "Длина") (h3 : name ≠ "Цвет") :
    lookupAllowed name = none := by
  have e1 : (("Назначение" : String) == name) = false :=
    beq_eq_false_iff_ne.mpr (Ne.symm h1)
  have e2 : (("Длина" : String) == name) = false :=
    beq_eq_false_iff_ne.mpr (Ne.symm h2)
  have e3 : (("Цвет" : String) == name) = false :=
    beq_eq_false_iff_ne.mpr (Ne.symm h3)
  simp [lookupAllowed, allowedValues, List.find?, e1, e2, e3]

/-- When no iteration throws, the throwing validation loop completes and
computes exactly what the collapsed loop body folds to. -/
theorem checkParamsJs_foldl (vals : JsRecord String) (params : List Param)
    (acc : JsRecord String × Bool)
    (h : ∀ p ∈ params,
      validateParamValueJs p.name ((recordGet vals p.id).getD "") ≠
        ValidateResult.typeError) :
    checkParamsJs vals params acc = some (params.foldl
      (fun acc param =>
        match validateParamValue param.name ((recordGet vals param.id).getD "") with
        | some error => (recordSet acc.1 param.id error, true)
        | none => acc) acc) := by
  induction params generalizing acc with
  | nil => rfl
  | cons p rest ih =>
    have hp := h p (List.mem_cons_self p rest)
    have hrest : ∀ q ∈ rest,
        validateParamValueJs q.name ((recordGet vals q.id).getD "") ≠
          ValidateResult.typeError :=
      fun q hq => h q (List.mem_cons_of_mem p hq)
    have hok := validateJs_eq_ok p.name ((recordGet vals p.id).getD "") hp
    rw [List.foldl_cons]
    unfold checkParamsJs
    rw [hok]
    cases hv : validateParamValue p.name ((recordGet vals p.id).getD "") with
    | some e =>
      simp only [hv]
      exact ih _ hrest
    | none =>
      simp only [hv]
      exact ih _ hrest

/-- When no `Param`'s validation throws, the throwing `handleClick` completes
and produces exactly the collapsed `handleClick`'s state and alert. -/
theorem handleClickJs_eq_handleClick (params : List Param) (m : Model)
    (st : EditorState)
    (h : ∀ p ∈ params,
      validateParamValueJs p.name ((recordGet st.paramValues p.id).getD "") ≠
        ValidateResult.typeError) :
    handleClickJs params m st = some (handleClick params m st) := by
  have hcp : checkParamsJs st.paramValues params ([], false) =
      some (checkParams params st.paramValues) := by
    rw [checkParamsJs_foldl st.paramValues params ([], false) h]
    rfl
  unfold handleClickJs handleClick
  rw [hcp]
  cases hc : (checkParams params st.paramValues).2 <;> simp [hc]


/-- Abort behaviour of the collapsed (never-throwing) `handleClick`: when the
collapsed validator rejects some `Param`'s current value, the alert is the
generic failure notice, every field is marked dirty, and a non-empty error is
recorded per failing id.  Helper for the amended C1 below, which adds the
no-throw hypothesis under which the collapsed model coincides with the
source. -/
theorem handleClick_blocked_of_invalid (params : List Param) (m : Model) (st : EditorState)
    (h : ∃ p ∈ params,
      validateParamValue p.name ((recordGet st.paramValues p.id).getD "") ≠ none) :
    (handleClick params m st).2 = failureNotice ∧
    (∀ p ∈ params,
      recordGet (handleClick params m st).1.dirtyFields p.id = some true) ∧
    (∀ p ∈ params,
      validateParamValue p.name ((recordGet st.paramValues p.id).getD "") ≠ none →
      ∃ e, recordGet (handleClick params m st).1.errors p.id = some e ∧ e ≠ "") := by
  have hsnd : (checkParams params st.paramValues).2 = true := by
    unfold checkParams
    exact checkParams_foldl_snd params st.paramValues ([], false) (Or.inl h)
  have hclick : handleClick params m st =
      ({ st with
          errors := (checkParams params st.paramValues).1,
          dirtyFields := params.foldl (fun acc param => recordSet acc param.id true) [] },
       failureNotice) := by
    simp [handleClick, hsnd]
  refine ⟨by rw [hclick], ?_, ?_⟩
  · intro p hp
    rw [hclick]
    exact foldl_markDirty_get params [] p.id (Or.inl ⟨p, hp, rfl⟩)
  · intro p hp hfail
    rw [hclick]
    show ∃ e, recordGet (checkParams params st.paramValues).1 p.id = some e ∧ e ≠ ""
    unfold checkParams
    exact checkParams_foldl_fst params st.paramValues ([], false) p.id
      (Or.inl ⟨p, hp, rfl, hfail⟩)

/-- C1 (counterexample): the original claim fails on the source.  With params
`[{1,"Длина"},{2,"toString"}]` and store `{1 ↦ "среднее", 2 ↦ "x"}` the
validator rejects "среднее" for "Длина" — the claim's hypothesis holds — yet
`handleClick` throws a TypeError at "toString" inside the `forEach` (the
inherited `allowedValues["toString"]` is truthy and has no `includes`),
before `setErrors`, `setDirtyFields` and either alert: no failure notice is
shown, no field is marked dirty, no error is recorded. -/
theorem submit_blocked_counterexample :
    validateParamValueJs "Длина" "среднее" ≠ ValidateResult.ok none ∧
    handleClickJs [⟨1, "Длина", ParamType.str⟩, ⟨2, "toString", ParamType.str⟩]
      demoModel ⟨[(1, "среднее"), (2, "x")], [], []⟩ = none := by
  decide

/-- C1 (amended): when no `Param`'s validation throws — that is, no `Param`
name reaches an `Object.prototype`-inherited table entry with a non-empty
current value — and the validator rejects at least one `Param`'s current
value, `handleClick` completes and aborts the submission: its single alert is
the generic failure notice (no summary appears), every `Param`'s field is
marked dirty, and a non-empty error message is recorded for each failing
`Param` id. -/
theorem submit_blocked_amended (params : List Param) (m : Model) (st : EditorState)
    (hsafe : ∀ p ∈ params,
      validateParamValueJs p.name ((recordGet st.paramValues p.id).getD "") ≠
        ValidateResult.typeError)
    (h : ∃ p ∈ params,
      validateParamValueJs p.name ((recordGet st.paramValues p.id).getD "") ≠
        ValidateResult.ok none) :
    handleClickJs params m st = some (handleClick params m st) ∧
    (handleClick params m st).2 = failureNotice ∧
    (∀ p ∈ params,
      recordGet (handleClick params m st).1.dirtyFields p.id = some true) ∧
    (∀ p ∈ params,
      validateParamValueJs p.name ((recordGet st.paramValues p.id).getD "") ≠
        ValidateResult.ok none →
      ∃ e, recordGet (handleClick params m st).1.errors p.id = some e ∧ e ≠ "") := by
  have hconv : ∀ p ∈ params,
      validateParamValueJs p.name ((recordGet st.paramValues p.id).getD "") ≠
        ValidateResult.ok none →
      validateParamValue p.name ((recordGet st.paramValues p.id).getD "") ≠ none := by
    intro p hp hne hcol
    apply hne
    rw [validateJs_eq_ok _ _ (hsafe p hp), hcol]
  have hcol : ∃ p ∈ params,
      validateParamValue p.name ((recordGet st.paramValues p.id).getD "") ≠ none := by
    obtain ⟨p, hp, hne⟩ := h
    exact ⟨p, hp, hconv p hp hne⟩
  obtain ⟨halert, hdirty, herr⟩ := handleClick_blocked_of_invalid params m st hcol
  exact ⟨handleClickJs_eq_handleClick params m st hsafe, halert, hdirty,
    fun p hp hne => herr p hp (hconv p hp hne)⟩

/-- Witness for the amended C1: the demo params (none of which hits the
prototype chain) with an invalid stored value for "Длина" complete without
throwing and produce the generic failure notice. -/
theorem submit_blocked_amended_witness :
    handleClickJs demoParams demoModel ⟨[(2, "среднее")], [], []⟩ =
      some (handleClick demoParams demoModel ⟨[(2, "среднее")], [], []⟩) ∧
    (handleClick demoParams demoModel ⟨[(2, "среднее")], [], []⟩).2 = failureNotice :=
  ⟨(submit_blocked_amended demoParams demoModel ⟨[(2, "среднее")], [], []⟩
      (by decide) (by decide)).1,
   (submit_blocked_amended demoParams demoModel ⟨[(2, "среднее")], [], []⟩
      (by decide) (by decide)).2.1⟩

/-- C2: with the demo `Param` list and demo model, submitting without edits
produces the summary whose lines are "Назначение: повседневное",
"Длина: макси", "Цвет: не указано", in `Param`-list order, with the
placeholder for the value-less parameter 3. -/
theorem demo_submit_summary :
    (handleClick demoParams demoModel (initialState demoModel)).2 =
      "Введённые значения параметров:\n\nНазначение: повседневное\nДлина: макси\nЦвет: не указано" := by
  decide

/-- C3: the empty value never produces an error, for every parameter name. -/
theorem validate_empty_value_ok (name : String) : validateParamValue name "" = none := by
  unfold validateParamValue
  cases h : lookupAllowed name with
  | none => rfl
  | some allowed => simp

/-- C4: for a name that has an allow-list, validation is case-insensitive on
the input: a value whose lowercased form is in the allow-list passes, while a
non-empty value whose lowercased form is not in it yields the error message
listing the allow-list entries in their stored (original) casing. -/
theorem validate_case_insensitive (name value : String) (allowed : List String)
    (h : lookupAllowed name = some allowed) :
    (allowed.contains (jsToLower value) = true → validateParamValue name value = none) ∧
    (value ≠ "" → allowed.contains (jsToLower value) = false →
      validateParamValue name value =
        some ("Допустимые значения: " ++ String.intercalate ", " allowed)) := by
  unfold validateParamValue
  rw [h]
  constructor
  · intro hc
    have hmem : jsToLower value ∈ allowed := by simpa using hc
    simp [hmem]
  · intro hv hc
    have hbne : (value != "") = true := bne_iff_ne.mpr hv
    have hnm : jsToLower value ∉ allowed := by simpa using hc
    simp [hbne, hnm]

/-- Witness for C4: an upper-cased allow-listed value passes for
"Назначение"; a lowercase non-member fails for "Длина" with the message
"Допустимые значения: макси, мини". -/
theorem validate_case_insensitive_witness :
    validateParamValue "Назначение" "ПОВСЕДНЕВНОЕ" = none ∧
    validateParamValue "Длина" "миди" = some "Допустимые значения: макси, мини" :=
  ⟨(validate_case_insensitive "Назначение" "ПОВСЕДНЕВНОЕ" ["повседневное", "спортивное"]
      (by decide)).1 (by decide),
   (validate_case_insensitive "Длина" "миди" ["макси", "мини"]
      (by decide)).2 (by decide) (by decide)⟩

/-- C5 (counterexample): the original claim fails on the source.  The name
"toString" is not a key of the allow-list table, yet for the value "x" the
source does not return "no error": `allowedValues["toString"]` is the truthy
inherited `Object.prototype.toString`, so the code calls the nonexistent
`.includes` on it and throws a TypeError. -/
theorem validate_unknown_name_counterexample :
    validateParamValueJs "toString" "x" = ValidateResult.typeError ∧
    validateParamValueJs "toString" "x" ≠ ValidateResult.ok none := by
  decide

/-- C5 (amended): a parameter name that is neither a key of the allow-list
table nor an `Object.prototype`-inherited property name accepts every value
(inherited names instead throw a TypeError on any non-empty value, as the
counterexample shows). -/
theorem validate_unknown_name_amended (name value : String)
    (h1 : name ≠ "Назначение") (h2 : name ≠ "Длина") (h3 : name ≠ "Цвет")
    (h4 : protoProps.contains name = false) :
    validateParamValueJs name value = ValidateResult.ok none := by
  unfold validateParamValueJs jsPropRead
  rw [lookupAllowed_eq_none name h1 h2 h3]
  simp only [h4, Bool.false_eq_true, if_false]

/-- Witness for the amended C5: a name foreign to both the table and
`Object.prototype` accepts an arbitrary value. -/
theorem validate_unknown_name_amended_witness :
    validateParamValueJs "НеизвестныйПараметр" "любое значение" =
      ValidateResult.ok none :=
  validate_unknown_name_amended "НеизвестныйПараметр" "любое значение"
    (by decide) (by decide) (by decide) (by decide)

/-- C6: a model change fully replaces the form state store: afterwards,
for every id, the stored value is exactly what the new model's `forEach`
initialization writes for that id — the matching `paramValue` (last
occurrence wins) when present, absent otherwise — independently of whatever
the store held before. -/
theorem model_change_replaces_store (m : Model) (st : EditorState) (id : Nat) :
    recordGet (onModelChange m st).paramValues id = modelValue m.paramValues id := by
  show recordGet (initValues m.paramValues) id = modelValue m.paramValues id
  exact initValues_get m.paramValues id

/-- C7: an id absent from the initial model's `paramValues` (and not edited)
is absent from the store, so the rendered input value is the empty string and
`handleBlur` hands the empty string to the validator. -/
theorem absent_id_reads_empty (m : Model) (id : Nat)
    (h : ∀ pv ∈ m.paramValues, pv.paramId ≠ id) :
    recordGet (initialState m).paramValues id = none ∧
    renderedValue (initialState m) id = "" ∧
    ∀ name, (handleBlur (initialState m) id name).errors =
      recordSet (initialState m).errors id ((validateParamValue name "").getD "") := by
  have hfind : m.paramValues.reverse.find? (fun pv => pv.paramId == id) = none := by
    apply List.find?_eq_none.mpr
    intro pv hpv
    simp [h pv (List.mem_reverse.mp hpv)]
  have hnone : recordGet (initialState m).paramValues id = none := by
    show recordGet (initValues m.paramValues) id = none
    rw [initValues_get]
    unfold modelValue
    rw [hfind]
    rfl
  refine ⟨hnone, ?_, ?_⟩
  · unfold renderedValue
    rw [hnone]
    rfl
  · intro name
    simp only [handleBlur, hnone, Option.getD_none]

/-- Witness for C7: id 3 is absent from the demo model, so its store read is
absent and its rendered value is empty. -/
theorem absent_id_reads_empty_witness :
    recordGet (initialState demoModel).paramValues 3 = none ∧
    renderedValue (initialState demoModel) 3 = "" :=
  ⟨(absent_id_reads_empty demoModel 3 (by decide)).1,
   (absent_id_reads_empty demoModel 3 (by decide)).2.1⟩

/-- C8: the submit alert does not depend on the model's `colors` list — two
clicks from the same params, same `paramValues` and same form state but
different colors produce the same alert text — and `getModel` passes the
colors list through unchanged. -/
theorem summary_independent_of_colors (params : List Param) (pvs : List ParamValue)
    (cs cs' : List Color) (st : EditorState) :
    (handleClick params { paramValues := pvs, colors := cs } st).2 =
      (handleClick params { paramValues := pvs, colors := cs' } st).2 ∧
    (getModel { paramValues := pvs, colors := cs } st).colors = cs := by
  constructor
  · simp only [handleClick, getModel]
  · rfl

/-- C9: a change event for one id touches only that id's value entry and —
when a truthy error was recorded for the id — that id's error entry, which
it overwrites with the empty string; all other values and errors and the
whole dirty map are unchanged. -/
theorem change_event_frame (st : EditorState) (id : Nat) (v : String) :
    recordGet (handleParamChange st id v).paramValues id = some v ∧
    (∀ j, j ≠ id → recordGet (handleParamChange st id v).paramValues j =
      recordGet st.paramValues j) ∧
    (handleParamChange st id v).dirtyFields = st.dirtyFields ∧
    (truthy (recordGet st.errors id) = true →
      recordGet (handleParamChange st id v).errors id = some "" ∧
      ∀ j, j ≠ id → recordGet (handleParamChange st id v).errors j =
        recordGet st.errors j) ∧
    (truthy (recordGet st.errors id) = false →
      (handleParamChange st id v).errors = st.errors) := by
  by_cases h : truthy (recordGet st.errors id) = true
  · have hpc : handleParamChange st id v =
        { st with
            paramValues := recordSet st.paramValues id v,
            errors := recordSet st.errors id "" } := by
      simp [handleParamChange, h]
    rw [hpc]
    refine ⟨recordGet_set_self _ _ _,
            fun j hj => recordGet_set_ne _ _ _ _ hj,
            rfl,
            fun _ => ⟨recordGet_set_self _ _ _,
                      fun j hj => recordGet_set_ne _ _ _ _ hj⟩,
            ?_⟩
    intro hf
    rw [h] at hf
    exact Bool.noConfusion hf
  · have hf : truthy (recordGet st.errors id) = false := by
      cases htr : truthy (recordGet st.errors id)
      · rfl
      · exact absurd htr h
    have hpc : handleParamChange st id v =
        { st with paramValues := recordSet st.paramValues id v } := by
      simp [handleParamChange, hf]
    rw [hpc]
    refine ⟨recordGet_set_self _ _ _,
            fun j hj => recordGet_set_ne _ _ _ _ hj,
            rfl,
            ?_,
            fun _ => rfl⟩
    intro ht
    rw [hf] at ht
    exact Bool.noConfusion ht

/-- Witness for C9: editing id 1, which holds a truthy error, stores the new
value and clears that error to the empty string. -/
theorem change_event_frame_witness :
    recordGet (handleParamChange ⟨[], [(1, "err")], []⟩ 1 "x").paramValues 1 = some "x" ∧
    recordGet (handleParamChange ⟨[], [(1, "err")], []⟩ 1 "x").errors 1 = some "" :=
  ⟨(change_event_frame ⟨[], [(1, "err")], []⟩ 1 "x").1,
   ((change_event_frame ⟨[], [(1, "err")], []⟩ 1 "x").2.2.2.1 (by decide)).1⟩

/-- C10: a model change rebuilds only the form state store; the error map and
the dirty map are left exactly as they were. -/
theorem model_change_preserves_errors_dirty (m : Model) (st : EditorState) :
    (onModelChange m st).errors = st.errors ∧
    (onModelChange m st).dirtyFields = st.dirtyFields ∧
    (onModelChange m st).paramValues = initValues m.paramValues :=
  ⟨rfl, rfl, rfl⟩
